import Mathlib

/-!
A shallow embedding of the proxy_spray program: input expansion of proxies and
targets, scheme matching, the probe request callback, header parsing, and the
bounded-concurrency dispatch loop, together with theorems checking the
specification claims against these definitions.

Strings are modelled as Lean strings; machine interaction (the actual HTTP
request, the filesystem check deciding whether an argument is a file) is
abstracted: the outcome of a request is an explicit value, and each input is
tagged as a file (with its full content given) or as a direct argument.
Fallible code (Python assert and exceptions escaping to top level) is modelled
with Except; the attached messages mirror the assert messages of the source.
-/

/-- The whitespace class of the Python regex token matching whitespace and of
the default str.strip, restricted to its ASCII part. -/
def isPyWs (c : Char) : Bool :=
  c == ' ' || c == '\t' || c == '\n' || c == '\r' || c == '\x0b' || c == '\x0c'

/-- Python str.startswith on character lists: the second list is a leading run
of the first. -/
def startsWithL : List Char → List Char → Bool
  | _, [] => true
  | [], _ :: _ => false
  | c :: cs, d :: ds => c == d && startsWithL cs ds

/-- Python s.startswith(p). -/
def strStartsWith (s p : String) : Bool := startsWithL s.data p.data

/-- ASCII lowering, modelling the case folding used by the case-insensitive
regex flag on ASCII pattern characters. -/
def lowerStr (s : String) : String := String.mk (s.data.map Char.toLower)

/-- The first n characters of a string. -/
def strTake (s : String) (n : Nat) : String := String.mk (s.data.take n)

/-- Python str.strip() with no argument: leading and trailing whitespace
removed. -/
def pyStrip (s : String) : String :=
  String.mk (((s.data.dropWhile isPyWs).reverse.dropWhile isPyWs).reverse)

/-- Helper of splitOnChar carrying the characters of the current piece in
reverse order. -/
def splitOnCharAux (sep : Char) (acc : List Char) : List Char → List (List Char)
  | [] => [acc.reverse]
  | c :: rest =>
    if c = sep then acc.reverse :: splitOnCharAux sep [] rest
    else splitOnCharAux sep (c :: acc) rest

/-- Python str.split(sep) for a single separator character. -/
def splitOnChar (sep : Char) (cs : List Char) : List (List Char) :=
  splitOnCharAux sep [] cs

/-- Decimal value of a digit list. -/
def digitsToNat (cs : List Char) : Nat :=
  cs.foldl (fun a c => a * 10 + (c.toNat - 48)) 0

/-- One octet of a dotted quad, following the ipaddress module: one to three
ASCII digits, no leading zero, value at most 255. -/
def parseOctet (cs : List Char) : Option Nat :=
  if cs.isEmpty then none
  else if cs.length > 3 then none
  else if !cs.all Char.isDigit then none
  else if cs.length > 1 && cs.headD ' ' == '0' then none
  else if digitsToNat cs ≤ 255 then some (digitsToNat cs) else none

/-- ipaddress.IPv4Address(s) as a 32-bit integer: exactly four octets separated
by dots. -/
def parseIPv4Address (s : String) : Option Nat :=
  match splitOnChar '.' s.data with
  | [a, b, c, d] =>
    match parseOctet a, parseOctet b, parseOctet c, parseOctet d with
    | some x, some y, some z, some w => some (((x * 256 + y) * 256 + z) * 256 + w)
    | _, _, _, _ => none
  | _ => none

/-- The length part after the slash, following the ipaddress module: ASCII
digits only (leading zeros allowed there), value at most 32. -/
def parsePlen (cs : List Char) : Option Nat :=
  if cs.isEmpty then none
  else if !cs.all Char.isDigit then none
  else if digitsToNat cs ≤ 32 then some (digitsToNat cs) else none

/-- ipaddress.IPv4Network(s, strict=False): at most one slash; without a slash
the length is 32; host bits are masked away rather than rejected. Returns the
network base address and the length. -/
def parseIPv4Network (s : String) : Option (Nat × Nat) :=
  match splitOnChar '/' s.data with
  | [a] => (parseIPv4Address (String.mk a)).map (fun ip => (ip, 32))
  | [a, p] =>
    match parseIPv4Address (String.mk a), parsePlen p with
    | some ip, some plen => some (ip - ip % 2 ^ (32 - plen), plen)
    | _, _ => none
  | _ => none

/-- Iterating an IPv4Network yields every address of the network in ascending
order, network and broadcast addresses included. -/
def networkAddrs (base plen : Nat) : List Nat :=
  (List.range (2 ^ (32 - plen))).map (fun i => base + i)

/-- str() of an IPv4Address: canonical dotted quad. -/
def ipToString (n : Nat) : String :=
  toString (n / 16777216 % 256) ++ "." ++ toString (n / 65536 % 256) ++ "."
    ++ toString (n / 256 % 256) ++ "." ++ toString (n % 256)

/-- The regex search deciding the CIDR branch of parseTarget, written on the
reversed character list: the pattern matches exactly when the string ends in a
slash followed by zero, one or two decimal digits. -/
def cidrRevMatches : List Char → Bool
  | [] => false
  | [c1] => c1 == '/'
  | [c1, c2] => c1 == '/' || (c2 == '/' && c1.isDigit)
  | c1 :: c2 :: c3 :: _ =>
    c1 == '/' || (c2 == '/' && c1.isDigit) || (c3 == '/' && c1.isDigit && c2.isDigit)

/-- The dollar anchor of a Python regex matches at the end of the string or
just before a single newline that ends the string, and no character of the
CIDR pattern can match that newline itself; applied to the reversed character
list, this discards a leading newline. -/
def chopFinalNl (cs : List Char) : List Char :=
  match cs with
  | [] => []
  | c :: r => if c = '\n' then r else c :: r

/-- The CIDR gate of parseTarget: the regex search anchored at the end of the
string, where the anchor also matches just before a trailing newline. -/
def cidrRegexMatches (t : String) : Bool := cidrRevMatches (chopFinalNl t.data.reverse)

/-- The two assumption switches of the command line. A false field means the
corresponding scheme assumption is enabled. -/
structure Args where
  no_assume_http : Bool
  no_assume_https : Bool
deriving DecidableEq

/-- assumeIPTarget of the source: http variant first when enabled, then https
variant when enabled. -/
def assumeIPTarget (args : Args) (t : String) : List String :=
  (if !args.no_assume_http then ["http://" ++ t] else [])
    ++ (if !args.no_assume_https then ["https://" ++ t] else [])

/-- assumeURLTarget of the source, with its exact guard conditions: the http
variant is added only when the literal starts with neither http nor https, and
likewise for the https variant. -/
def assumeURLTarget (args : Args) (t : String) : List String :=
  (if !args.no_assume_http && (!strStartsWith t "http" && !strStartsWith t "https") then
      ["http://" ++ t] else [])
    ++ (if !args.no_assume_https && (!strStartsWith t "https" && !strStartsWith t "http") then
      ["https://" ++ t] else [])

/-- parseTarget of the source: CIDR branch when the end-anchored regex search
succeeds (a failing network parse there is a fatal error), otherwise bare
IPv4 address branch, otherwise literal URL branch with pass-through when no
assumption fires. -/
def parseTarget (args : Args) (t : String) : Except String (List String) :=
  if cidrRegexMatches t then
    match parseIPv4Network t with
    | some (base, plen) =>
      Except.ok ((networkAddrs base plen).foldl
        (fun acc ip => acc ++ assumeIPTarget args (ipToString ip)) [])
    | none => Except.error ("could not parse network: " ++ t)
  else
    match parseIPv4Address t with
    | some ip => Except.ok (assumeIPTarget args (ipToString ip))
    | none =>
      if (assumeURLTarget args t).isEmpty then Except.ok [t]
      else Except.ok (assumeURLTarget args t)

/-- True when the character at index i exists and is not a newline; the dot of
the parseProxy regex must match one such character after the scheme part. -/
def hasNonNlAt (s : String) (i : Nat) : Bool :=
  match s.data.drop i with
  | [] => false
  | c :: _ => !(c == '\n')

/-- parseProxy of the source: a case-insensitive end-open match of the scheme
part followed by at least one character; the returned scheme token is the
matched text before the colon in its original case, the address is the whole
input. A none result models the failing assert. -/
def parseProxy (s : String) : Option (String × String) :=
  if strStartsWith (lowerStr s) "https://" && hasNonNlAt s 8 then some (strTake s 5, s)
  else if strStartsWith (lowerStr s) "http://" && hasNonNlAt s 7 then some (strTake s 4, s)
  else none

/-- The leading scheme token extracted by the case-sensitive anchored regex of
compareSchemes: greedy, so https is preferred over http. -/
def extractScheme (v : String) : Option String :=
  if strStartsWith v "https" then some "https"
  else if strStartsWith v "http" then some "http"
  else none

/-- compareSchemes of the source: true exactly when both extractions succeed
with equal tokens. -/
def compareSchemes (v0 v1 : String) : Bool :=
  match extractScheme v0, extractScheme v1 with
  | some a, some b => a == b
  | _, _ => false

/-- The part of an HTTP response the callback inspects. -/
structure Response where
  status_code : Nat
deriving DecidableEq

/-- Outcome of the HTTP transaction issued by a probe: either a completed
response or a raised transport, TLS or connection error. -/
inductive ProbeOutcome where
  | resp (r : Response)
  | exn (e : String)
deriving DecidableEq

/-- The five-tuple returned by genericRequestsCallback. -/
structure ResultRecord (P T : Type) where
  success : Bool
  proxy : P
  target : T
  response : Option Response
  error : Option String
deriving DecidableEq

/-- genericRequestsCallback of the source: a completed response with status 403
raises inside the try block and is caught like a transport error; every other
completed response is a success carrying the response. -/
def genericRequestsCallback {P T : Type} (proxy : P) (target : T) (o : ProbeOutcome) :
    ResultRecord P T :=
  match o with
  | ProbeOutcome.resp r =>
    if r.status_code = 403 then
      ResultRecord.mk false proxy target none (some "403 Forbidden Response")
    else ResultRecord.mk true proxy target (some r) none
  | ProbeOutcome.exn e => ResultRecord.mk false proxy target none (some e)

/-- Helper of fileLines carrying the characters of the current line in reverse
order. -/
def fileLinesAux (acc : List Char) : List Char → List (List Char)
  | [] => if acc.isEmpty then [] else [acc.reverse]
  | c :: rest =>
    if c = '\n' then (acc.reverse ++ ['\n']) :: fileLinesAux [] rest
    else fileLinesAux (c :: acc) rest

/-- Iterating an open text file in Python: pieces split after each newline,
each piece keeping its trailing newline; no empty final piece. -/
def fileLines (s : String) : List String :=
  (fileLinesAux [] s.data).map String.mk

/-- A value stored under the scheme key of an accumulated proxy entry: the
file branch stores the address string, the command-line branch stores a nested
one-key dict. -/
inductive PVal where
  | str (v : String)
  | dict (k : String) (v : String)
deriving DecidableEq

/-- An accumulated proxy entry: a one-key dict from scheme to a value. -/
abbrev ProxyEntry := String × PVal

/-- One element of the proxy-urls argument list, tagged by whether the
filesystem check classifies it as an existing file. -/
inductive ProxyInput where
  | file (content : String)
  | cli (s : String)

/-- The file branch of the proxy accumulation loop: each line is stripped,
parsed, wrapped as a one-key dict, dropped when already present, appended
otherwise. -/
def accumFileLines : List String → List ProxyEntry → Except String (List ProxyEntry)
  | [], ps => Except.ok ps
  | l :: rest, ps =>
    match parseProxy (pyStrip l) with
    | none => Except.error ("Invalid proxy/proxy file supplied: " ++ pyStrip l)
    | some (scheme, url) =>
      if (scheme, PVal.str url) ∈ ps then accumFileLines rest ps
      else accumFileLines rest (ps ++ [(scheme, PVal.str url)])

/-- The proxy accumulation loop of the main block. The command-line branch
rebinds the proxy variable to the one-key dict before appending a dict wrapping
that dict, exactly as the source does. -/
def accumGo : List ProxyInput → List ProxyEntry → Except String (List ProxyEntry)
  | [], ps => Except.ok ps
  | ProxyInput.file content :: rest, ps =>
    match accumFileLines (fileLines content) ps with
    | Except.error e => Except.error e
    | Except.ok ps2 => accumGo rest ps2
  | ProxyInput.cli s :: rest, ps =>
    match parseProxy s with
    | none => Except.error ("Invalid proxy/proxy file supplied: " ++ s)
    | some (scheme, url) =>
      if (scheme, PVal.str url) ∈ ps then accumGo rest ps
      else accumGo rest (ps ++ [(scheme, PVal.dict scheme url)])

/-- Proxy accumulation over the whole proxy-urls argument list. -/
def accumProxies (inputs : List ProxyInput) : Except String (List ProxyEntry) :=
  accumGo inputs []

/-- Index of the first newline of a character list, or its length when there is
none. -/
def firstNl : List Char → Nat
  | [] => 0
  | c :: cs => if c = '\n' then 0 else firstNl cs + 1

/-- Index of the first newline at position p or later, or the length when there
is none. -/
def firstNlFrom (cs : List Char) (p : Nat) : Nat := p + firstNl (cs.drop p)

/-- Backtracking of the whitespace run of the parseHeader regex: the start
position p of the second group is tried from largest to smallest; a position
succeeds when the greedy run of non-newline characters from p is nonempty and
stops at the end of the string or just before a trailing newline. k counts the
remaining candidates, the tried position being i + 2 + k. -/
def tryPAux (cs : List Char) (i : Nat) : Nat → Option Nat
  | 0 =>
    if i + 2 < firstNlFrom cs (i + 2) ∧
        (firstNlFrom cs (i + 2) = cs.length ∨ firstNlFrom cs (i + 2) + 1 = cs.length) then
      some (i + 2)
    else none
  | k + 1 =>
    if i + 3 + k < firstNlFrom cs (i + 3 + k) ∧
        (firstNlFrom cs (i + 3 + k) = cs.length ∨ firstNlFrom cs (i + 3 + k) + 1 = cs.length) then
      some (i + 3 + k)
    else tryPAux cs i k

/-- Length of the maximal whitespace run after position i. -/
def wsLenAt (cs : List Char) (i : Nat) : Nat := ((cs.drop (i + 1)).takeWhile isPyWs).length

/-- Backtracking of the first greedy group of the parseHeader regex: the colon
position i is tried from largest to smallest; the first group must be nonempty
and free of newlines, the whitespace run after the colon nonempty. -/
def findColon (cs : List Char) : Nat → Option (Nat × Nat)
  | 0 => none
  | j + 1 =>
    if cs.get? (j + 1) = some ':' ∧ j + 1 ≤ firstNl cs then
      if wsLenAt cs (j + 1) = 0 then findColon cs j
      else
        match tryPAux cs (j + 1) (wsLenAt cs (j + 1) - 1) with
        | some p => some (j + 1, p)
        | none => findColon cs j
    else findColon cs j

/-- The single possible match of the anchored parseHeader regex: the colon
position and the start of the second group, when the pattern matches. -/
def matchHeader (cs : List Char) : Option (Nat × Nat) :=
  findColon cs (cs.length - 1)

/-- parseHeader of the source: the regex split produces the text before the
match, the two groups, and the text after the match; empty pieces are filtered
out and the assert demands exactly two pieces. The groups are nonempty, so the
assert holds exactly when the pattern matches and nothing follows the match
(the leftover is the trailing newline when the anchor matched before it). -/
def parseHeader (h : String) : Except String (String × String) :=
  match matchHeader h.data with
  | none => Except.error ("Invalid header supplied: " ++ h)
  | some (i, p) =>
    if firstNlFrom h.data p = h.data.length then
      Except.ok (String.mk (h.data.take i),
        String.mk ((h.data.drop p).take (firstNlFrom h.data p - p)))
    else Except.error ("Invalid header supplied: " ++ h)

/-- One element of the http-headers argument list, tagged by whether the
filesystem check classifies it as an existing file. -/
inductive HeaderInput where
  | file (content : String)
  | cli (s : String)

/-- Assignment into a Python dict modelled as an insertion-ordered association
list. -/
def assocSet (m : List (String × String)) (k v : String) : List (String × String) :=
  if m.any (fun kv => kv.1 == k) then
    m.map (fun kv => if kv.1 == k then (k, v) else kv)
  else m ++ [(k, v)]

/-- The inner loop of the header loading block over the lines of a header
file: each raw line is passed to parseHeader without stripping. -/
def loadHeaderLines : List String → List (String × String) →
    Except String (List (String × String))
  | [], acc => Except.ok acc
  | l :: rest, acc =>
    match parseHeader l with
    | Except.error e => Except.error e
    | Except.ok kv => loadHeaderLines rest (assocSet acc kv.1 kv.2)

/-- The header loading loop of the main block. -/
def loadHeadersGo : List HeaderInput → List (String × String) →
    Except String (List (String × String))
  | [], acc => Except.ok acc
  | HeaderInput.file content :: rest, acc =>
    match loadHeaderLines (fileLines content) acc with
    | Except.error e => Except.error e
    | Except.ok acc2 => loadHeadersGo rest acc2
  | HeaderInput.cli s :: rest, acc =>
    match parseHeader s with
    | Except.error e => Except.error e
    | Except.ok kv => loadHeadersGo rest (assocSet acc kv.1 kv.2)

/-- Header loading over the whole http-headers argument list. -/
def loadHeaders (inputs : List HeaderInput) : Except String (List (String × String)) :=
  loadHeadersGo inputs []

/-- A probe candidate: the address string of a proxy paired with a target
URL. -/
abbrev Pair := String × String

/-- The eligibility test of the dispatch loop. -/
def compatible (pt : Pair) : Bool := compareSchemes pt.1 pt.2

/-- State of the dispatch loop: the pairs of the cross product not yet
considered, the results list of outstanding work items (each identified by its
pair), and a history of every submission in order. -/
structure DispState where
  pending : List Pair
  outstanding : List Pair
  submitted : List Pair

/-- Small-step semantics of the dispatch and drain loops for a window of N.
skip drops an incompatible pair; submit appends a work item, which the source
reaches only when the results length differs from N; poll models one scan of
the inner while loop, which runs only at length N and deletes the ready items,
leaving a sublist; drainHead models the final loop, which checks only the head
item once the cross product is exhausted. -/
inductive DStep (N : Nat) : DispState → DispState → Prop where
  | skip (pt : Pair) (rest out sub : List Pair) :
      compatible pt = false →
      DStep N (DispState.mk (pt :: rest) out sub) (DispState.mk rest out sub)
  | submit (pt : Pair) (rest out sub : List Pair) :
      compatible pt = true → out.length ≠ N →
      DStep N (DispState.mk (pt :: rest) out sub)
        (DispState.mk rest (out ++ [pt]) (sub ++ [pt]))
  | poll (pend out out2 sub : List Pair) :
      out.length = N → List.Sublist out2 out →
      DStep N (DispState.mk pend out sub) (DispState.mk pend out2 sub)
  | drainHead (pt : Pair) (out sub : List Pair) :
      DStep N (DispState.mk [] (pt :: out) sub) (DispState.mk [] out sub)

/-- Reachability from the initial state of the dispatch loop. -/
def DReach (N : Nat) (pairs : List Pair) (s : DispState) : Prop :=
  Relation.ReflTransGen (DStep N) (DispState.mk pairs [] []) s

/-- The proxy-major cross product enumerated by the two nested for loops. -/
def crossPairs (proxies targets : List String) : List Pair :=
  proxies.flatMap (fun p => targets.map (fun t => (p, t)))

/-- Modelled from the spec wording of claim C6, for comparison with the code
condition cidrRegexMatches: the string ends with a slash followed by a prefix
length between 0 and 32, that is at least one digit with numeric value at most
32. -/
def specCidrPattern (t : String) : Bool :=
  match (t.data.reverse).drop ((t.data.reverse).takeWhile Char.isDigit).length with
  | '/' :: _ =>
    !((t.data.reverse).takeWhile Char.isDigit).isEmpty
      && decide (digitsToNat ((t.data.reverse).takeWhile Char.isDigit).reverse ≤ 32)
  | _ => false

/-! Theorems. Helper lemmas come first, then one theorem per claim with its
witness or counterexample. -/

theorem startsWithL_append_left :
    ∀ (p q l : List Char), startsWithL l (p ++ q) = true → startsWithL l p = true
  | [], _, l, _ => by cases l <;> rfl
  | _ :: _, _, [], h => by simp [startsWithL] at h
  | c :: p, q, d :: l, h => by
    simp only [List.cons_append, startsWithL, Bool.and_eq_true, beq_iff_eq] at h ⊢
    exact ⟨h.1, startsWithL_append_left p q l h.2⟩

/-- Claim C1 (code_bug evaluation): the same proxy given twice directly on the
command line is appended twice, as a doubly wrapped entry both times, because
the command-line branch wraps the already wrapped value before appending, so
the membership test can never match an entry it produced; the same proxy twice
in a file is deduplicated as the spec states. -/
theorem spec_C1_duplicate_cli :
    accumProxies [ProxyInput.cli "http://p", ProxyInput.cli "http://p"]
      = Except.ok [("http", PVal.dict "http" "http://p"), ("http", PVal.dict "http" "http://p")]
    ∧ accumProxies [ProxyInput.file "http://p\nhttp://p\n"]
      = Except.ok [("http", PVal.str "http://p")] :=
  ⟨rfl, rfl⟩

/-- Claim C2: compareSchemes is true exactly when the greedy leading scheme
extraction succeeds on both strings with equal tokens; an extraction succeeds
exactly when the string starts with http or https; a failed extraction on
either side gives false; and the two concrete cases of the spec hold. -/
theorem spec_C2 (v0 v1 : String) :
    (compareSchemes v0 v1 = true ↔
      ∃ s, extractScheme v0 = some s ∧ extractScheme v1 = some s)
    ∧ ((extractScheme v0).isSome = true ↔
        (strStartsWith v0 "http" = true ∨ strStartsWith v0 "https" = true))
    ∧ (extractScheme v0 = none ∨ extractScheme v1 = none → compareSchemes v0 v1 = false)
    ∧ compareSchemes "http://p" "https://t" = false
    ∧ compareSchemes "https://p" "https://t" = true := by
  refine ⟨?_, ?_, ?_, by decide, by decide⟩
  · cases h0 : extractScheme v0 with
    | none => simp [compareSchemes, h0]
    | some a =>
      cases h1 : extractScheme v1 with
      | none => simp [compareSchemes, h0, h1]
      | some b =>
        simp only [compareSchemes, h0, h1, beq_iff_eq, Option.some.injEq]
        constructor
        · rintro rfl; exact ⟨a, rfl, rfl⟩
        · rintro ⟨s, rfl, rfl⟩; rfl
  · unfold extractScheme
    by_cases hs : strStartsWith v0 "https" = true
    · have hh : strStartsWith v0 "http" = true := by
        have hs2 : startsWithL v0.data ("http".data ++ ['s']) = true := hs
        exact startsWithL_append_left "http".data ['s'] v0.data hs2
      simp [hs, hh]
    · by_cases hh : strStartsWith v0 "http" = true
      · simp [hs, hh]
      · simp [hs, hh]
  · intro h
    rcases h with h | h
    · simp [compareSchemes, h]
    · cases h0 : extractScheme v0 <;> simp [compareSchemes, h0, h]

theorem spec_C2_witness :
    compareSchemes "ftp://x" "http://t" = false ∧ compareSchemes "http://p" "ftp://x" = false :=
  ⟨(spec_C2 "ftp://x" "http://t").2.2.1 (Or.inl rfl),
   (spec_C2 "http://p" "ftp://x").2.2.1 (Or.inr rfl)⟩

/-- Claim C3: the callback returns success with the response attached and no
error exactly when the transaction completes with a status other than 403; a
completed 403 and a raised transport error both return failure with no
response and the error attached; the proxy and target arguments are returned
unchanged. -/
theorem spec_C3 {P T : Type} (p : P) (t : T) (o : ProbeOutcome) :
    (∀ r, o = ProbeOutcome.resp r → r.status_code ≠ 403 →
        genericRequestsCallback p t o = ResultRecord.mk true p t (some r) none)
    ∧ (∀ r, o = ProbeOutcome.resp r → r.status_code = 403 →
        genericRequestsCallback p t o
          = ResultRecord.mk false p t none (some "403 Forbidden Response"))
    ∧ (∀ e, o = ProbeOutcome.exn e →
        genericRequestsCallback p t o = ResultRecord.mk false p t none (some e))
    ∧ ((genericRequestsCallback p t o).success = true ↔
        ∃ r, o = ProbeOutcome.resp r ∧ r.status_code ≠ 403)
    ∧ (genericRequestsCallback p t o).proxy = p
    ∧ (genericRequestsCallback p t o).target = t := by
  refine ⟨?_, ?_, ?_, ?_, ?_, ?_⟩
  · rintro r rfl hne; simp [genericRequestsCallback, hne]
  · rintro r rfl h; simp [genericRequestsCallback, h]
  · rintro e rfl; rfl
  · cases o with
    | resp r => by_cases h : r.status_code = 403 <;> simp [genericRequestsCallback, h]
    | exn e => simp [genericRequestsCallback]
  · cases o with
    | resp r => by_cases h : r.status_code = 403 <;> simp [genericRequestsCallback, h]
    | exn e => rfl
  · cases o with
    | resp r => by_cases h : r.status_code = 403 <;> simp [genericRequestsCallback, h]
    | exn e => rfl

theorem spec_C3_witness :
    genericRequestsCallback "p" "t" (ProbeOutcome.resp (Response.mk 200))
        = ResultRecord.mk true "p" "t" (some (Response.mk 200)) none
    ∧ genericRequestsCallback "p" "t" (ProbeOutcome.resp (Response.mk 403))
        = ResultRecord.mk false "p" "t" none (some "403 Forbidden Response")
    ∧ genericRequestsCallback "p" "t" (ProbeOutcome.exn "TLS error")
        = ResultRecord.mk false "p" "t" none (some "TLS error") :=
  ⟨(spec_C3 "p" "t" (ProbeOutcome.resp (Response.mk 200))).1 (Response.mk 200) rfl (by decide),
   (spec_C3 "p" "t" (ProbeOutcome.resp (Response.mk 403))).2.1 (Response.mk 403) rfl rfl,
   (spec_C3 "p" "t" (ProbeOutcome.exn "TLS error")).2.2.1 "TLS error" rfl⟩

/-- Claim C4: the CIDR input 10.0.0.0/30 with both assumptions enabled expands
to exactly 8 targets in address order, network and broadcast addresses
included, http before https for each address; and for any address string the
scheme assumption produces exactly the enabled variants, http first, and
nothing when both are disabled. -/
theorem spec_C4 :
    parseTarget (Args.mk false false) "10.0.0.0/30"
      = Except.ok ["http://10.0.0.0", "https://10.0.0.0", "http://10.0.0.1",
          "https://10.0.0.1", "http://10.0.0.2", "https://10.0.0.2",
          "http://10.0.0.3", "https://10.0.0.3"]
    ∧ ∀ t : String,
        assumeIPTarget (Args.mk false false) t = ["http://" ++ t, "https://" ++ t]
        ∧ assumeIPTarget (Args.mk false true) t = ["http://" ++ t]
        ∧ assumeIPTarget (Args.mk true false) t = ["https://" ++ t]
        ∧ assumeIPTarget (Args.mk true true) t = [] :=
  ⟨rfl, fun _ => ⟨rfl, rfl, rfl, rfl⟩⟩

/-- Claim C5: a literal target that is not routed to the CIDR branch, does not
parse as a bare IPv4 address, and starts with http (which every https literal
also does) fires neither assumption, so parseTarget returns it unchanged as a
single-element list, whatever the assumption switches are. -/
theorem spec_C5 (args : Args) (t : String) (hc : cidrRegexMatches t = false)
    (hip : parseIPv4Address t = none) (hh : strStartsWith t "http" = true) :
    parseTarget args t = Except.ok [t] := by
  unfold parseTarget
  simp [hc, hip, assumeURLTarget, hh]

theorem spec_C5_witness :
    parseTarget (Args.mk false false) "https://x" = Except.ok ["https://x"] :=
  spec_C5 (Args.mk false false) "https://x" rfl rfl rfl

/-- Claim C6 (counterexample): the string 10.0.0.0/33 is routed to the CIDR
branch by the code condition although its trailing number is not a prefix
length between 0 and 32, and the run aborts there instead of falling through
to the literal branch. -/
theorem spec_C6_counterexample :
    cidrRegexMatches "10.0.0.0/33" = true
    ∧ specCidrPattern "10.0.0.0/33" = false
    ∧ parseTarget (Args.mk false false) "10.0.0.0/33"
        = Except.error "could not parse network: 10.0.0.0/33" :=
  ⟨rfl, rfl, rfl⟩

/-- Claim C9 (counterexample): the proxy string httpS://p has a scheme prefix
that is not entirely lowercase, parseProxy accepts it returning the token in
its original case, yet compareSchemes does not return false against every
target: the case-sensitive extraction still finds the lowercase token http, so
the proxy matches every http target. -/
theorem spec_C9_counterexample :
    parseProxy "httpS://p" = some ("httpS", "httpS://p")
    ∧ compareSchemes "httpS://p" "http://t" = true :=
  ⟨rfl, rfl⟩

theorem cidrRevMatches_iff (r : List Char) :
    cidrRevMatches r = true ↔
      ∃ ds rest : List Char,
        r = ds ++ '/' :: rest ∧ ds.length ≤ 2 ∧ ds.all Char.isDigit = true := by
  constructor
  · intro h
    rcases r with _ | ⟨c1, _ | ⟨c2, _ | ⟨c3, rest3⟩⟩⟩
    · simp [cidrRevMatches] at h
    · simp only [cidrRevMatches, beq_iff_eq] at h
      exact ⟨[], [], by simp [h], Nat.zero_le 2, rfl⟩
    · simp only [cidrRevMatches, Bool.or_eq_true, Bool.and_eq_true, beq_iff_eq] at h
      rcases h with h | ⟨h2, hd⟩
      · exact ⟨[], [c2], by simp [h], Nat.zero_le 2, rfl⟩
      · exact ⟨[c1], [], by simp [h2], Nat.le_succ 1, by simp [hd]⟩
    · simp only [cidrRevMatches, Bool.or_eq_true, Bool.and_eq_true, beq_iff_eq] at h
      rcases h with (h | ⟨h2, hd⟩) | ⟨⟨h3, hd1⟩, hd2⟩
      · exact ⟨[], c2 :: c3 :: rest3, by simp [h], Nat.zero_le 2, rfl⟩
      · exact ⟨[c1], c3 :: rest3, by simp [h2], Nat.le_succ 1, by simp [hd]⟩
      · exact ⟨[c1, c2], rest3, by simp [h3], Nat.le_refl 2, by simp [hd1, hd2]⟩
  · rintro ⟨ds, rest, rfl, hlen, hdig⟩
    rcases ds with _ | ⟨d1, _ | ⟨d2, _ | ⟨d3, dtl⟩⟩⟩
    · rcases rest with _ | ⟨e1, _ | ⟨e2, etl⟩⟩ <;> simp [cidrRevMatches]
    · have hd1 : d1.isDigit = true := by simpa using hdig
      rcases rest with _ | ⟨e1, etl⟩ <;> simp [cidrRevMatches, hd1]
    · have hd : d1.isDigit = true ∧ d2.isDigit = true := by simpa using hdig
      simp [cidrRevMatches, hd.1, hd.2]
    · exfalso
      simp only [List.length_cons] at hlen
      omega

/-- Claim C6 (amended): target expansion takes the CIDR branch exactly when
the raw string, after discarding the single newline that may end it (the end
anchor of the search also matches just before a trailing newline), ends with
a slash followed by at most two characters, all of them decimal digits
(possibly none); the 0 to 32 bound of the claim is not checked by the branch
condition, and a matched string whose network part is out of range or
malformed, such as a trailing newline after the digits, is a fatal parse
error there instead of falling through. -/
theorem spec_C6 (t : String) :
    (cidrRegexMatches t = true ↔
      ∃ pre ds : List Char,
        (chopFinalNl t.data.reverse).reverse = pre ++ '/' :: ds
        ∧ ds.length ≤ 2 ∧ ds.all Char.isDigit = true)
    ∧ cidrRegexMatches "10.0.0.0/30\n" = true
    ∧ parseTarget (Args.mk false false) "10.0.0.0/30\n"
        = Except.error ("could not parse network: " ++ "10.0.0.0/30\n") := by
  refine ⟨?_, rfl, rfl⟩
  rw [cidrRegexMatches, cidrRevMatches_iff]
  constructor
  · rintro ⟨ds, rest, hrev, hlen, hdig⟩
    refine ⟨rest.reverse, ds.reverse, ?_, by simpa using hlen, by simpa using hdig⟩
    rw [hrev]
    simp [List.reverse_append]
  · rintro ⟨pre, ds, heq, hlen, hdig⟩
    refine ⟨ds.reverse, pre.reverse, ?_, by simpa using hlen, by simpa using hdig⟩
    have h2 := congrArg List.reverse heq
    rw [List.reverse_reverse] at h2
    rw [h2]
    simp [List.reverse_append]

/-- Claim C9 (amended): parseProxy accepts case-insensitively and returns the
scheme token in the original case of the input (the leading five or four
characters); whenever the address does not start with the exact lowercase
characters http, compareSchemes returns false against every target, so a proxy
such as HTTP://p is accepted at load time yet excluded from every dispatch;
but an address whose first four characters are lowercase http with only the
following s in upper case, such as httpS://p, extracts the token http and is
dispatched against http targets, contrary to the unamended claim. -/
theorem spec_C9 (s t : String) :
    parseProxy "HTTP://p" = some ("HTTP", "HTTP://p")
    ∧ (strStartsWith s "http" = false → compareSchemes s t = false)
    ∧ (∀ sch u, parseProxy s = some (sch, u) →
        u = s ∧ (sch = strTake s 5 ∨ sch = strTake s 4))
    ∧ compareSchemes "HTTP://p" t = false := by
  refine ⟨rfl, ?_, ?_, ?_⟩
  · intro hns
    have h2 : strStartsWith s "https" = false := by
      cases hv : strStartsWith s "https" with
      | false => rfl
      | true =>
        have h3 : startsWithL s.data ("http".data ++ ['s']) = true := hv
        have h4 : strStartsWith s "http" = true :=
          startsWithL_append_left "http".data ['s'] s.data h3
        rw [hns] at h4
        exact absurd h4 (by decide)
    simp [compareSchemes, extractScheme, h2, hns]
  · intro sch u hp
    unfold parseProxy at hp
    split at hp
    · simp only [Option.some.injEq, Prod.mk.injEq] at hp
      exact ⟨hp.2.symm, Or.inl hp.1.symm⟩
    · split at hp
      · simp only [Option.some.injEq, Prod.mk.injEq] at hp
        exact ⟨hp.2.symm, Or.inr hp.1.symm⟩
      · cases hp
  · have h0 : extractScheme "HTTP://p" = none := rfl
    simp [compareSchemes, h0]

theorem spec_C9_witness :
    compareSchemes "ftp://x" "http://t" = false
    ∧ ("https://x" = "https://x"
        ∧ ("https" = strTake "https://x" 5 ∨ "https" = strTake "https://x" 4))
    ∧ compareSchemes "HTTP://p" "https://t" = false :=
  ⟨(spec_C9 "ftp://x" "http://t").2.1 rfl,
   (spec_C9 "https://x" "t").2.2.1 "https" "https://x" rfl,
   (spec_C9 "HTTP://p" "https://t").2.2.2⟩

theorem firstNl_lt_of_mem : ∀ l : List Char, '\n' ∈ l → firstNl l < l.length
  | [], h => absurd h (List.not_mem_nil _)
  | c :: t, h => by
    simp only [firstNl, List.length_cons]
    by_cases hc : c = '\n'
    · simp [hc]
    · rw [if_neg hc]
      have hmem : '\n' ∈ t := by
        rcases List.mem_cons.mp h with h1 | h1
        · exact absurd h1.symm hc
        · exact h1
      exact Nat.succ_lt_succ (firstNl_lt_of_mem t hmem)

theorem tryPAux_some (cs : List Char) (i : Nat) :
    ∀ k p, tryPAux cs i k = some p →
      p < firstNlFrom cs p ∧
        (firstNlFrom cs p = cs.length ∨ firstNlFrom cs p + 1 = cs.length) := by
  intro k
  induction k with
  | zero =>
    intro p h
    unfold tryPAux at h
    split at h
    · rename_i hcond
      simp only [Option.some.injEq] at h
      subst h
      exact hcond
    · simp at h
  | succ k ih =>
    intro p h
    unfold tryPAux at h
    split at h
    · rename_i hcond
      simp only [Option.some.injEq] at h
      subst h
      exact hcond
    · exact ih p h

theorem findColon_some (cs : List Char) :
    ∀ j i p, findColon cs j = some (i, p) →
      p < firstNlFrom cs p ∧
        (firstNlFrom cs p = cs.length ∨ firstNlFrom cs p + 1 = cs.length) := by
  intro j
  induction j with
  | zero => intro i p h; simp [findColon] at h
  | succ j ih =>
    intro i p h
    unfold findColon at h
    split at h
    · split at h
      · exact ih i p h
      · split at h
        · rename_i p2 htp
          simp only [Option.some.injEq, Prod.mk.injEq] at h
          exact h.2 ▸ tryPAux_some cs (j + 1) (wsLenAt cs (j + 1) - 1) p2 htp
        · exact ih i p h
    · exact ih i p h

theorem parseHeader_error_of_nl (s : String) (l : List Char) (hs : s.data = l ++ ['\n']) :
    ∃ e, parseHeader s = Except.error e := by
  unfold parseHeader
  cases hm : matchHeader s.data with
  | none => exact ⟨_, rfl⟩
  | some ip =>
    obtain ⟨i, p⟩ := ip
    obtain ⟨hpq, hdol⟩ := findColon_some s.data (s.data.length - 1) i p hm
    have hplen : p < s.data.length := by
      rcases hdol with h1 | h1 <;> omega
    have hple : p ≤ l.length := by
      rw [hs] at hplen
      simp only [List.length_append, List.length_cons, List.length_nil] at hplen
      omega
    have hmem : '\n' ∈ s.data.drop p := by
      rw [hs, List.drop_append_eq_append_drop, Nat.sub_eq_zero_of_le hple]
      simp
    have hlt : firstNlFrom s.data p < s.data.length := by
      have h5 := firstNl_lt_of_mem (s.data.drop p) hmem
      have h6 : (s.data.drop p).length = s.data.length - p := List.length_drop ..
      unfold firstNlFrom
      omega
    refine ⟨"Invalid header supplied: " ++ s, ?_⟩
    simp only [if_neg (Nat.ne_of_lt hlt)]

theorem fileLinesAux_first_of_mem :
    ∀ (l acc : List Char), '\n' ∈ l →
      ∃ pre rest, fileLinesAux acc l = (acc.reverse ++ (pre ++ ['\n'])) :: rest
  | [], _, h => absurd h (List.not_mem_nil _)
  | c :: t, acc, h => by
    by_cases hc : c = '\n'
    · refine ⟨[], fileLinesAux [] t, ?_⟩
      simp [fileLinesAux, hc]
    · have hmem : '\n' ∈ t := by
        rcases List.mem_cons.mp h with h1 | h1
        · exact absurd h1.symm hc
        · exact h1
      obtain ⟨pre, rest, heq⟩ := fileLinesAux_first_of_mem t (c :: acc) hmem
      refine ⟨c :: pre, rest, ?_⟩
      simp only [fileLinesAux]
      rw [if_neg hc, heq]
      simp

theorem loadHeadersGo_file_error (content : String) (hnl : '\n' ∈ content.data) :
    ∀ (inputs : List HeaderInput) (acc : List (String × String)),
      HeaderInput.file content ∈ inputs →
      ∃ e, loadHeadersGo inputs acc = Except.error e := by
  intro inputs
  induction inputs with
  | nil => intro acc h; exact absurd h (List.not_mem_nil _)
  | cons x rest ih =>
    intro acc hmem
    rcases List.mem_cons.mp hmem with hx | hx
    · subst hx
      obtain ⟨pre, rest2, hfl⟩ := fileLinesAux_first_of_mem content.data [] hnl
      obtain ⟨e, he⟩ := parseHeader_error_of_nl (String.mk (pre ++ ['\n'])) pre rfl
      have hfl2 : fileLines content = String.mk (pre ++ ['\n']) :: rest2.map String.mk := by
        unfold fileLines
        rw [hfl]
        simp
      have hll : loadHeaderLines (fileLines content) acc = Except.error e := by
        rw [hfl2]
        unfold loadHeaderLines
        rw [he]
      refine ⟨e, ?_⟩
      unfold loadHeadersGo
      rw [hll]
    · cases x with
      | file c2 =>
        cases hl : loadHeaderLines (fileLines c2) acc with
        | error e => exact ⟨e, by unfold loadHeadersGo; rw [hl]⟩
        | ok acc2 =>
          obtain ⟨e, he⟩ := ih acc2 hx
          exact ⟨e, by unfold loadHeadersGo; rw [hl]; exact he⟩
      | cli s2 =>
        cases hl : parseHeader s2 with
        | error e => exact ⟨e, by unfold loadHeadersGo; rw [hl]⟩
        | ok kv =>
          obtain ⟨e, he⟩ := ih (assocSet acc kv.1 kv.2) hx
          exact ⟨e, by unfold loadHeadersGo; rw [hl]; exact he⟩

/-- Claim C10: every input string ending with a newline makes parseHeader fail
with the assert error, even when the text before the newline is a well-formed
pair, because the trailing newline survives the split as a third nonempty
piece; header lines read from a file keep their newline (no stripping), so a
header file containing any newline aborts the run. -/
theorem spec_C10 (s content : String) (inputs : List HeaderInput)
    (acc : List (String × String)) :
    ((∃ l, s.data = l ++ ['\n']) → ∃ e, parseHeader s = Except.error e)
    ∧ (HeaderInput.file content ∈ inputs → '\n' ∈ content.data →
        ∃ e, loadHeadersGo inputs acc = Except.error e)
    ∧ parseHeader "Key: Value" = Except.ok ("Key", "Value")
    ∧ parseHeader "Key: Value\n" = Except.error "Invalid header supplied: Key: Value\n" := by
  refine ⟨?_, ?_, rfl, rfl⟩
  · rintro ⟨l, hl⟩
    exact parseHeader_error_of_nl s l hl
  · intro hmem hnl
    exact loadHeadersGo_file_error content hnl inputs acc hmem

theorem spec_C10_witness :
    (∃ e, parseHeader "Key: Value\n" = Except.error e)
    ∧ (∃ e, loadHeadersGo [HeaderInput.file "X-A: 1\n"] [] = Except.error e) :=
  ⟨(spec_C10 "Key: Value\n" "" [] []).1 ⟨"Key: Value".data, rfl⟩,
   (spec_C10 "x" "X-A: 1\n" [HeaderInput.file "X-A: 1\n"] []).2.1
     (List.mem_singleton.mpr rfl) (by decide)⟩

theorem dReach_inv (N : Nat) (pairs : List Pair) (s : DispState) (h : DReach N pairs s) :
    s.outstanding.length ≤ N
    ∧ ∃ done, pairs = done ++ s.pending ∧ s.submitted = done.filter compatible := by
  induction h with
  | refl => exact ⟨Nat.zero_le N, [], by simp, by simp⟩
  | tail hab hbc ih =>
    obtain ⟨hlen, done, hpair, hsub⟩ := ih
    cases hbc with
    | skip pt rest out sub hc =>
      dsimp only at hlen hpair hsub ⊢
      refine ⟨hlen, done ++ [pt], ?_, ?_⟩
      · rw [hpair]; simp
      · rw [hsub]; simp [List.filter_append, hc]
    | submit pt rest out sub hc hne =>
      dsimp only at hlen hpair hsub ⊢
      refine ⟨?_, done ++ [pt], ?_, ?_⟩
      · simp only [List.length_append, List.length_cons, List.length_nil]
        omega
      · rw [hpair]; simp
      · rw [hsub]; simp [List.filter_append, hc]
    | poll pend out out2 sub hN hsl =>
      dsimp only at hlen hpair hsub ⊢
      exact ⟨le_trans hsl.length_le hlen, done, hpair, hsub⟩
    | drainHead pt out sub =>
      dsimp only at hlen hpair hsub ⊢
      refine ⟨?_, done, hpair, hsub⟩
      simp only [List.length_cons] at hlen
      omega

/-- Claim C7: for every window size N of at least 1, in every state the
dispatch loop can reach, the results list of outstanding work items has length
at most N: a submission happens only when the length differs from N, and the
length never exceeds N from the start, so it never passes N at any instant. -/
theorem spec_C7 (N : Nat) (hN : 1 ≤ N) (pairs : List Pair) (s : DispState)
    (h : DReach N pairs s) : s.outstanding.length ≤ N :=
  (dReach_inv N pairs s h).1

theorem spec_C7_witness :
    1 ≤ 1
    ∧ (DispState.mk [] [("http://p", "http://t")]
        [("http://p", "http://t")]).outstanding.length ≤ 1 :=
  ⟨Nat.le_refl 1,
   spec_C7 1 (Nat.le_refl 1) [("http://p", "http://t")]
     (DispState.mk [] [("http://p", "http://t")] [("http://p", "http://t")])
     (Relation.ReflTransGen.single
       (DStep.submit ("http://p", "http://t") [] [] [] (by decide) (by decide)))⟩

theorem mem_crossPairs (proxies targets : List String) (a b : String) :
    (a, b) ∈ crossPairs proxies targets ↔ a ∈ proxies ∧ b ∈ targets := by
  simp [crossPairs]

theorem crossPairs_nodup (proxies targets : List String)
    (hp : proxies.Nodup) (ht : targets.Nodup) : (crossPairs proxies targets).Nodup := by
  induction proxies with
  | nil => simp [crossPairs]
  | cons p ps ih =>
    obtain ⟨hp1, hp2⟩ := List.nodup_cons.mp hp
    rw [show crossPairs (p :: ps) targets
        = targets.map (fun t => (p, t)) ++ crossPairs ps targets from rfl]
    refine List.Nodup.append (ht.map fun t1 t2 hteq => ?_) (ih hp2) ?_
    · simpa using congrArg Prod.snd hteq
    · intro x hx1 hx2
      obtain ⟨t, htm, rfl⟩ := List.mem_map.mp hx1
      exact hp1 ((mem_crossPairs ps targets p t).mp hx2).1

/-- Claim C8: when the dispatch loop has consumed the whole cross product, the
submission history is exactly the compatible pairs of the cross product in
order: one submission per compatible pair, none for an incompatible pair; and
with duplicate-free proxy and target lists the submission history is itself
duplicate-free, so no pair is ever submitted twice, whatever the outcomes of
the probes were. -/
theorem spec_C8 (proxies targets : List String) (N : Nat) (s : DispState)
    (h : DReach N (crossPairs proxies targets) s) (hdone : s.pending = []) :
    s.submitted = (crossPairs proxies targets).filter compatible
    ∧ (proxies.Nodup → targets.Nodup → s.submitted.Nodup) := by
  obtain ⟨-, done, hpair, hsub⟩ := dReach_inv N (crossPairs proxies targets) s h
  rw [hdone, List.append_nil] at hpair
  subst hpair
  refine ⟨hsub, fun hp ht => ?_⟩
  rw [hsub]
  exact (crossPairs_nodup proxies targets hp ht).filter _

theorem spec_C8_witness :
    (DispState.mk [] [("http://p", "http://t")] [("http://p", "http://t")]).submitted
      = (crossPairs ["http://p"] ["http://t"]).filter compatible
    ∧ (DispState.mk [] [("http://p", "http://t")]
        [("http://p", "http://t")]).submitted.Nodup := by
  have hreach : DReach 1 (crossPairs ["http://p"] ["http://t"])
      (DispState.mk [] [("http://p", "http://t")] [("http://p", "http://t")]) :=
    Relation.ReflTransGen.single
      (DStep.submit ("http://p", "http://t") [] [] [] (by decide) (by decide))
  have h8 := spec_C8 ["http://p"] ["http://t"] 1
    (DispState.mk [] [("http://p", "http://t")] [("http://p", "http://t")]) hreach rfl
  exact ⟨h8.1, h8.2 (by decide) (by decide)⟩
